import Mathlib

/-!
Verification of the algorithmic core of the versatool-hub repository:
the symmetric crypto codec (src/utils/clipboard.ts), the text-diff
tokenizer and LCS aligner (src/pages/text/TextDiff.tsx), and the
password generator (src/hooks/usePasswordGenerator.ts).

Conventions of the embedding:
- JS strings on the crypto side are Lean `String`s; on the tokenizer/diff
  side texts are `List Char` (code points, matching the `u`-flag regex
  semantics of the source).
- The crypto-js primitives (PBKDF2, HMAC-SHA256, block ciphers) are not
  part of the repository; they are abstracted as a `Prims` bundle of
  opaque-to-us functions, and theorems assume only the standard facts
  about them that the source relies on.
- Randomness (crypto.getRandomValues) is modelled by an abstract stream
  `R : Nat → Nat` of raw draws, consumed in source order.
-/

/-! ## Symmetric crypto codec (src/utils/clipboard.ts) -/

/-- Algorithm selector, source type `CryptoAlgo = 'AES' | 'DES' | 'TripleDES'`. -/
inductive CryptoAlgo where
  | AES
  | DES
  | TripleDES
  deriving DecidableEq, Repr

/-- Serialized name of an algorithm, as stored in the envelope field `a`. -/
def algoName : CryptoAlgo → String
  | CryptoAlgo.AES => "AES"
  | CryptoAlgo.DES => "DES"
  | CryptoAlgo.TripleDES => "TripleDES"

/-- Error codes of the source enum `CryptoErrorCode`. -/
inductive CryptoErrorCode where
  | INVALID_PAYLOAD
  | UNSUPPORTED_VERSION
  | INTEGRITY_FAILED
  | DECRYPTION_FAILED
  | MALFORMED_INPUT
  deriving DecidableEq, Repr

/-- Source constant `SECURITY_CONFIG.VERSION`. -/
def VERSION : Nat := 1

/-- Abstraction of the crypto-js primitives used by clipboard.ts.
`pbkdf2 passphrase saltHex` models the 64-byte PBKDF2-SHA256 derivation
(16 32-bit words); `hmac key data` models `HmacSHA256(data, key).toString()`;
`encrypt algo key ivHex plaintext` models CBC/PKCS7 encryption returning the
base64 ciphertext; `decrypt algo key ivHex ctBase64` models CBC/PKCS7
decryption followed by UTF-8 decoding, `none` standing for a thrown
cipher/padding error. -/
structure Prims where
  pbkdf2 : String → String → List Nat
  hmac : List Nat → String → String
  encrypt : CryptoAlgo → List Nat → String → String → String
  decrypt : CryptoAlgo → List Nat → String → String → Option String

/-- Source `deriveKeys`: one PBKDF2 call, words 0..7 are the cipher key and
words 8..15 the MAC key (positional split of a single derivation). -/
def deriveKeys (P : Prims) (passphrase saltHex : String) : List Nat × List Nat :=
  let derived := P.pbkdf2 passphrase saltHex
  (derived.take 8, (derived.drop 8).take 8)

/-- Source `calculateMAC`: HMAC-SHA256 over the pipe-joined payload parts. -/
def calculateMAC (P : Prims) (payloadParts : List String) (macKey : List Nat) : String :=
  P.hmac macKey (String.intercalate "|" payloadParts)

/-- Source interface `EncryptedPayload` (v1 envelope), with `a` stored in its
serialized string form. -/
structure EncryptedPayload where
  v : Nat
  a : String
  s : String
  iv : String
  ct : String
  mac : String
  deriving DecidableEq, Repr

/-- Result of `JSON.parse` on a decrypt input: every envelope field may be
absent. A whole-input parse failure is modelled by `none` at the use site. -/
structure ParsedPayload where
  v : Option Nat
  a : Option String
  s : Option String
  iv : Option String
  ct : Option String
  mac : Option String
  deriving DecidableEq, Repr

/-- Models `JSON.parse (JSON.stringify payload)` for the flat v1 envelope:
all six fields come back present. -/
def toParsed (p : EncryptedPayload) : ParsedPayload :=
  ⟨some p.v, some p.a, some p.s, some p.iv, some p.ct, some p.mac⟩

/-- JS falsiness of the parsed numeric field `v` (`!payload.v`). -/
def falsyN : Option Nat → Bool
  | none => true
  | some n => n == 0

/-- JS falsiness of a parsed string field (`!payload.ct` and friends). -/
def falsyS : Option String → Bool
  | none => true
  | some s => s.isEmpty

/-- Value contributed by the possibly-absent field `a` to
`payloadParts.join('|')`: `Array.prototype.join` renders `undefined` as
the empty string. -/
def joinedField : Option String → String
  | none => ""
  | some s => s

/-- Property names every plain object literal inherits from
`Object.prototype` (including the Annex B accessors): indexing `ALGO_MAP`
with one of these returns the inherited member — a truthy function or
object — rather than `undefined`. -/
def objectProtoKeys : List String :=
  ["constructor", "hasOwnProperty", "isPrototypeOf", "propertyIsEnumerable",
   "toLocaleString", "toString", "valueOf", "__proto__", "__defineGetter__",
   "__defineSetter__", "__lookupGetter__", "__lookupSetter__"]

/-- Result of the source lookup `ALGO_MAP[payload.a] || ALGO_MAP.AES`:
either one of the three crypto-js cipher objects, or a truthy non-cipher
value inherited from `Object.prototype` (on which `.decrypt` is not a
function). -/
inductive CipherLookup where
  | cipher (algo : CryptoAlgo)
  | junk
  deriving DecidableEq, Repr

/-- Source `ALGO_MAP[payload.a] || ALGO_MAP.AES`. Own keys select their
cipher; an inherited `Object.prototype` key yields a truthy non-cipher, so
the `||` fallback does NOT trigger; any other name (or an absent `a`)
looks up `undefined` and falls back to AES. -/
def algoLookup (a : Option String) : CipherLookup :=
  match a with
  | none => CipherLookup.cipher CryptoAlgo.AES
  | some x =>
    if x = "AES" then CipherLookup.cipher CryptoAlgo.AES
    else if x = "DES" then CipherLookup.cipher CryptoAlgo.DES
    else if x = "TripleDES" then CipherLookup.cipher CryptoAlgo.TripleDES
    else if x ∈ objectProtoKeys then CipherLookup.junk
    else CipherLookup.cipher CryptoAlgo.AES

/-- Source `encryptText`. The two fresh random values (salt and IV, as hex
strings) are passed explicitly; the returned JSON string is represented by
the envelope record it serializes. -/
def encryptText (P : Prims) (text passphrase : String) (algo : CryptoAlgo)
    (saltHex ivHex : String) : EncryptedPayload :=
  let keys := deriveKeys P passphrase saltHex
  let ciphertextBase64 := P.encrypt algo keys.1 ivHex text
  let mac := calculateMAC P
    [toString VERSION, algoName algo, saltHex, ivHex, ciphertextBase64] keys.2
  ⟨VERSION, algoName algo, saltHex, ivHex, ciphertextBase64, mac⟩

/-- Source `decryptText`, on the parse result of its string input
(`none` = `JSON.parse` threw). Field presence check, version check, MAC
recomputation and comparison, then decryption with empty-plaintext
rejection, in source order. Calling `.decrypt` on a truthy non-cipher
selected by an inherited key throws a TypeError, caught as
DECRYPTION_FAILED. -/
def decryptText (P : Prims) (packed : Option ParsedPayload) (passphrase : String) :
    Except CryptoErrorCode String :=
  match packed with
  | none => Except.error CryptoErrorCode.INVALID_PAYLOAD
  | some payload =>
    if falsyN payload.v || falsyS payload.ct || falsyS payload.s ||
        falsyS payload.iv || falsyS payload.mac then
      Except.error CryptoErrorCode.INVALID_PAYLOAD
    else
      let v := payload.v.getD 0
      let s := payload.s.getD ""
      let iv := payload.iv.getD ""
      let ct := payload.ct.getD ""
      let mac := payload.mac.getD ""
      if v ≠ VERSION then
        Except.error CryptoErrorCode.UNSUPPORTED_VERSION
      else
        let keys := deriveKeys P passphrase s
        let expectedMac := calculateMAC P
          [toString v, joinedField payload.a, s, iv, ct] keys.2
        if expectedMac ≠ mac then
          Except.error CryptoErrorCode.INTEGRITY_FAILED
        else
          match algoLookup payload.a with
          | CipherLookup.junk => Except.error CryptoErrorCode.DECRYPTION_FAILED
          | CipherLookup.cipher algo =>
            match P.decrypt algo keys.1 iv ct with
            | none => Except.error CryptoErrorCode.DECRYPTION_FAILED
            | some plainText =>
              if plainText.isEmpty then Except.error CryptoErrorCode.DECRYPTION_FAILED
              else Except.ok plainText

/-- Concrete primitive bundle used to instantiate witnesses: the cipher
prepends one byte (so ciphertexts are never empty, as PKCS7 guarantees),
decryption strips it, and the MAC is a constant tag. -/
def testPrims : Prims where
  pbkdf2 := fun _ _ => List.range 16
  hmac := fun _ _ => "m"
  encrypt := fun _ _ _ t => "E" ++ t
  decrypt := fun _ _ _ ct => some (ct.drop 1)

/-! ## Tokenizer and normalization (src/pages/text/TextDiff.tsx) -/

/-- Normalization settings of the TextDiff page. -/
structure DiffSettings where
  ignoreCase : Bool
  ignorePunctuation : Bool
  ignoreWhitespace : Bool
  deriving DecidableEq, Repr

/-- Regex `\w` with the `u` flag: ASCII letters, digits, underscore. -/
def isWordChar (c : Char) : Bool :=
  decide (65 ≤ c.toNat ∧ c.toNat ≤ 90) || decide (97 ≤ c.toNat ∧ c.toNat ≤ 122) ||
  decide (48 ≤ c.toNat ∧ c.toNat ≤ 57) || decide (c.toNat = 95)

/-- Character class `[\w']` of the word-token alternative. -/
def isWordOrApostrophe (c : Char) : Bool :=
  isWordChar c || decide (c.toNat = 39)

/-- Regex `\s` (and `String.prototype.trim`) per the JS spec: WhiteSpace
plus LineTerminator code points. -/
def isJsSpace (c : Char) : Bool :=
  decide (c.toNat ∈ ([9, 10, 11, 12, 13, 32, 160, 0x1680, 0x2028, 0x2029,
    0x202f, 0x205f, 0x3000, 0xfeff] : List Nat)) ||
  decide (0x2000 ≤ c.toNat ∧ c.toNat ≤ 0x200a)

/-- CJK range `[一-龥]` of the source regexes. -/
def isCJK (c : Char) : Bool :=
  decide (0x4e00 ≤ c.toNat ∧ c.toNat ≤ 0x9fa5)

/-- Fullwidth folding of `getDiffKey` steps 1a and 1b composed: shift
`！`-`～` down by `0xfee0`, then map the ideographic space
`　` to an ASCII space. -/
def foldChar (c : Char) : Char :=
  if 0xff01 ≤ c.toNat ∧ c.toNat ≤ 0xff5e then Char.ofNat (c.toNat - 0xfee0)
  else if c.toNat = 0x3000 then Char.ofNat 32
  else c

/-- JS `String.prototype.trim` on a code-point list. -/
def jsTrim (s : List Char) : List Char :=
  ((s.dropWhile isJsSpace).reverse.dropWhile isJsSpace).reverse

/-- Source `getDiffKey`, parametrized by `pPS`, the decidable membership
test of the regex class `[\p{P}\p{S}]` (Unicode punctuation and symbols),
which the source gets from the regex engine. `Char.toLower` stands for
`String.prototype.toLowerCase`. Steps in source order: fullwidth folding,
optional case folding, optional punctuation strip, optional whitespace
strip, and a final trim only when whitespace is significant. -/
def getDiffKey (pPS : Char → Bool) (st : DiffSettings) (str : List Char) : List Char :=
  let key := str.map foldChar
  let key := if st.ignoreCase then key.map Char.toLower else key
  let key := if st.ignorePunctuation then key.filter (fun c => !(pPS c)) else key
  let key := if st.ignoreWhitespace then key.filter (fun c => !(isJsSpace c)) else key
  if st.ignoreWhitespace then key else jsTrim key

/-- Dual-key token of the source: `render` is the exact original substring,
`diff` the normalized comparison key. -/
structure Token where
  render : List Char
  diff : List Char
  deriving DecidableEq, Repr

/-- Fuelled scanner for the source regex
`([一-龥]|[\w']+|[^\s\w一-龥]|\s+)` with the `g` flag:
alternatives are tried left to right at each position, every character
starts a match, so matches tile the input. The third (single punctuation)
alternative excludes whitespace, so testing whitespace before it is
equivalent. Fuel is the remaining input length. -/
def rawTokensAux : Nat → List Char → List (List Char)
  | 0, _ => []
  | _ + 1, [] => []
  | fuel + 1, c :: rest =>
    if isCJK c then [c] :: rawTokensAux fuel rest
    else if isWordOrApostrophe c then
      (c :: rest.takeWhile isWordOrApostrophe) ::
        rawTokensAux fuel (rest.dropWhile isWordOrApostrophe)
    else if isJsSpace c then
      (c :: rest.takeWhile isJsSpace) :: rawTokensAux fuel (rest.dropWhile isJsSpace)
    else
      [c] :: rawTokensAux fuel rest

/-- Segmentation step of the source `tokenize` (`text.match(...) || []`). -/
def rawTokens (text : List Char) : List (List Char) :=
  rawTokensAux text.length text

/-- Test `/^[\p{P}\p{S}]+$/u.test(render)` of the source filter. -/
def isPurePunct (pPS : Char → Bool) (render : List Char) : Bool :=
  !render.isEmpty && render.all pPS

/-- Test `/^\s+$/.test(render)` of the source filter. -/
def isPureWhitespace (render : List Char) : Bool :=
  !render.isEmpty && render.all isJsSpace

/-- Source `tokenize`: empty-input guard, segmentation, dual-key mapping,
then the render-based filter dropping pure-punctuation tokens under
ignore-punctuation and pure-whitespace tokens under ignore-whitespace. -/
def tokenize (pPS : Char → Bool) (st : DiffSettings) (text : List Char) : List Token :=
  if text = [] then []
  else
    ((rawTokens text).map fun raw => Token.mk raw (getDiffKey pPS st raw)).filter
      fun t =>
        !(st.ignorePunctuation && isPurePunct pPS t.render) &&
        !(st.ignoreWhitespace && isPureWhitespace t.render)

/-- Concrete instance of the `[\p{P}\p{S}]` class membership, restricted to
the ASCII range (all 32 ASCII punctuation characters are in `P` or `S`);
used to instantiate the `pPS` parameter in concrete examples. -/
def asciiPunctSymbol (c : Char) : Bool :=
  decide (0x21 ≤ c.toNat ∧ c.toNat ≤ 0x2f) || decide (0x3a ≤ c.toNat ∧ c.toNat ≤ 0x40) ||
  decide (0x5b ≤ c.toNat ∧ c.toNat ≤ 0x60) || decide (0x7b ≤ c.toNat ∧ c.toNat ≤ 0x7e)

/-! ## LCS diff engine (src/pages/text/TextDiff.tsx, computeDiff) -/

/-- Diff op kinds of the source type `DiffType`. -/
inductive DiffType where
  | added
  | removed
  | unchanged
  deriving DecidableEq, Repr

/-- One entry of the edit script: `{ type, oldItem?, newItem? }`. -/
structure DiffOp where
  type : DiffType
  oldItem : Option Token
  newItem : Option Token
  deriving DecidableEq, Repr

/-- Row `i+1` of the DP table, given row `i` as `prevRow`; `dpRowSucc o n i
prevRow j` is `dp[i+1][j]` of the source fill, with column 0 zero and the
classic LCS recurrence (`dp[i][j] = dp[i-1][j-1]+1` on key match, else
`max(dp[i-1][j], dp[i][j-1])`). -/
def dpRowSucc (o n : List Token) (iIdx : Nat) (prevRow : Nat → Nat) : Nat → Nat
  | 0 => 0
  | j + 1 =>
    if (o.getD iIdx (Token.mk [] [])).diff = (n.getD j (Token.mk [] [])).diff then
      prevRow j + 1
    else
      max (prevRow (j + 1)) (dpRowSucc o n iIdx prevRow j)

/-- Rows of the DP table, built top-down exactly as the source's row loop. -/
def dpRow (o n : List Token) : Nat → Nat → Nat
  | 0 => fun _ => 0
  | i + 1 => dpRowSucc o n i (dpRow o n i)

/-- Entry `dp[i][j]` of the source table: the LCS length of the first `i`
old items and the first `j` new items. -/
def dpT (o n : List Token) (i j : Nat) : Nat :=
  dpRow o n i j

/-- Fuelled transcription of the source backtracking loop. From `(i, j)`
it prefers a diagonal key match (`unchanged`), otherwise consumes from the
new side (`added`) when `j > 0` and `i == 0 || dp[i][j-1] >= dp[i-1][j]`,
otherwise from the old side (`removed`); ops are prepended, so the
recursion appends. Fuel `i + j` suffices, each step consumes at least one
index. -/
def btAux (o n : List Token) : Nat → Nat → Nat → List DiffOp
  | 0, _, _ => []
  | _ + 1, 0, 0 => []
  | fuel + 1, 0, j + 1 =>
    btAux o n fuel 0 j ++ [DiffOp.mk DiffType.added none n[j]?]
  | fuel + 1, i + 1, 0 =>
    btAux o n fuel i 0 ++ [DiffOp.mk DiffType.removed o[i]? none]
  | fuel + 1, i + 1, j + 1 =>
    if (o.getD i (Token.mk [] [])).diff = (n.getD j (Token.mk [] [])).diff then
      btAux o n fuel i j ++ [DiffOp.mk DiffType.unchanged o[i]? n[j]?]
    else if dpT o n (i + 1) j ≥ dpT o n i (j + 1) then
      btAux o n fuel (i + 1) j ++ [DiffOp.mk DiffType.added none n[j]?]
    else
      btAux o n fuel i (j + 1) ++ [DiffOp.mk DiffType.removed o[i]? none]

/-- Backtracking from table position `(i, j)`. -/
def backtrack (o n : List Token) (i j : Nat) : List DiffOp :=
  btAux o n (i + j) i j

/-- Source `computeDiff`: fill the table, then backtrack from `(n, m)`. -/
def computeDiff (o n : List Token) : List DiffOp :=
  backtrack o n o.length n.length

/-- Old-side items of the Unchanged and Removed ops of a script, in order. -/
def oldSide (ops : List DiffOp) : List Token :=
  ops.filterMap fun op =>
    match op.type with
    | DiffType.added => none
    | DiffType.removed => op.oldItem
    | DiffType.unchanged => op.oldItem

/-- New-side items of the Unchanged and Added ops of a script, in order. -/
def newSide (ops : List DiffOp) : List Token :=
  ops.filterMap fun op =>
    match op.type with
    | DiffType.added => op.newItem
    | DiffType.removed => none
    | DiffType.unchanged => op.newItem

/-! ## Password generator (src/hooks/usePasswordGenerator.ts) -/

/-- Source constant `CHARSETS.uppercase`. -/
def CHARSETS_uppercase : List Char := "ABCDEFGHIJKLMNOPQRSTUVWXYZ".toList

/-- Source constant `CHARSETS.lowercase`. -/
def CHARSETS_lowercase : List Char := "abcdefghijklmnopqrstuvwxyz".toList

/-- Source constant `CHARSETS.numbers`. -/
def CHARSETS_numbers : List Char := "0123456789".toList

/-- Source constant `CHARSETS.symbols`. -/
def CHARSETS_symbols : List Char := "!@#$%^&*()_+~`|\x7d\x7b[]:;?><,./-=".toList

/-- Source constant `CHARSETS.ambiguous`. -/
def CHARSETS_ambiguous : List Char := "Il1O0".toList

/-- Option flags of the generator hook. -/
structure PasswordOptions where
  uppercase : Bool
  lowercase : Bool
  numbers : Bool
  symbols : Bool
  excludeAmbiguous : Bool
  deriving DecidableEq, Repr

/-- Source `isValid`: at least one character class selected. -/
def isValid (opts : PasswordOptions) : Bool :=
  opts.uppercase || opts.lowercase || opts.numbers || opts.symbols

/-- Source `sanitize`: under `excludeAmbiguous`, remove every occurrence
of each ambiguous character (`set.split(char).join('')`, folded over the
ambiguous set). -/
def sanitize (opts : PasswordOptions) (set : List Char) : List Char :=
  if !opts.excludeAmbiguous then set
  else CHARSETS_ambiguous.foldl (fun acc c => acc.filter (fun x => x ≠ c)) set

/-- Active pools in source push order: uppercase, lowercase, numbers,
symbols. -/
def activePools (opts : PasswordOptions) : List (List Char) :=
  (if opts.uppercase then [sanitize opts CHARSETS_uppercase] else []) ++
  (if opts.lowercase then [sanitize opts CHARSETS_lowercase] else []) ++
  (if opts.numbers then [sanitize opts CHARSETS_numbers] else []) ++
  (if opts.symbols then [sanitize opts CHARSETS_symbols] else [])

/-- Models `getSecureRandomInt(max)`: the source rejection-samples a raw
32-bit value below the largest multiple of `max` and reduces it modulo
`max`; the post-rejection draw is modelled by an arbitrary raw stream
value reduced modulo `max`. -/
def getSecureRandomInt (raw max : Nat) : Nat :=
  raw % max

/-- Source `pools.map(pool => pool.charAt(getSecureRandomInt(pool.length)))`:
one draw per active pool, in order, consuming stream indices from `i`. -/
def coveragePicks (R : Nat → Nat) : Nat → List (List Char) → List Char
  | _, [] => []
  | i, pool :: rest =>
    pool.getD (getSecureRandomInt (R i) pool.length) (Char.ofNat 32) ::
      coveragePicks R (i + 1) rest

/-- Source fill loop: for `i` from `start` to `start + count - 1`, draw a
uniform character of the flattened charset. -/
def fillChars (R : Nat → Nat) (fullCharset : List Char) (start count : Nat) : List Char :=
  (List.range' start count).map fun i =>
    fullCharset.getD (getSecureRandomInt (R i) fullCharset.length) (Char.ofNat 32)

/-- Swap of two positions of a list, via two `set`s (the JS destructuring
swap on an array). -/
def listSwap (l : List Char) (i j : Nat) : List Char :=
  (l.set i (l.getD j (Char.ofNat 32))).set j (l.getD i (Char.ofNat 32))

/-- Source Fisher-Yates loop body: at countdown index `i + 1`, draw
`j = getSecureRandomInt(i + 2)` (stream index `ctr`) and swap. -/
def fyLoop (R : Nat → Nat) : Nat → List Char → Nat → List Char
  | _, l, 0 => l
  | ctr, l, i + 1 =>
    fyLoop R (ctr + 1) (listSwap l (i + 1) (getSecureRandomInt (R ctr) (i + 2))) i

/-- Source Fisher-Yates shuffle over the assembled password characters,
starting at `i = length - 1`. -/
def fisherYates (R : Nat → Nat) (ctr : Nat) (l : List Char) : List Char :=
  fyLoop R ctr l (l.length - 1)

/-- Source `generate`: validity guard, pool assembly, flattened charset
guard, one coverage pick per pool, fill up to
`targetLength = max(length, picks.length)`, then shuffle. The random
stream is consumed in source call order: picks at indices `0..pools-1`,
fill at `pools..targetLength-1`, shuffle draws afterwards. -/
def generate (R : Nat → Nat) (len : Nat) (opts : PasswordOptions) : List Char :=
  if !isValid opts then []
  else
    let pools := activePools opts
    let fullCharset := pools.flatten
    if fullCharset.length = 0 then []
    else
      let passwordChars := coveragePicks R 0 pools
      let targetLength := max len passwordChars.length
      let filled := passwordChars ++
        fillChars R fullCharset passwordChars.length (targetLength - passwordChars.length)
      fisherYates R targetLength filled

/-! ## Theorems: crypto codec -/

/-- C1 (amended): the encrypt/decrypt round trip with matching passphrase
recovers every NON-EMPTY plaintext. Hypotheses state the crypto-js facts
the source relies on: CBC/PKCS7 decryption inverts encryption under the
same key and IV, ciphertexts are non-empty (PKCS7 always pads), HMAC
digests are non-empty hex strings, and the random salt/IV hex strings are
non-empty. -/
theorem crypto_roundtrip (P : Prims) (text passphrase saltHex ivHex : String)
    (htext : text ≠ "")
    (hsalt : saltHex ≠ "") (hiv : ivHex ≠ "")
    (hct : P.encrypt CryptoAlgo.AES (deriveKeys P passphrase saltHex).1 ivHex text ≠ "")
    (hmacne : ∀ k d, P.hmac k d ≠ "")
    (hdec : P.decrypt CryptoAlgo.AES (deriveKeys P passphrase saltHex).1 ivHex
        (P.encrypt CryptoAlgo.AES (deriveKeys P passphrase saltHex).1 ivHex text) = some text) :
    decryptText P (some (toParsed (encryptText P text passphrase CryptoAlgo.AES saltHex ivHex)))
      passphrase = Except.ok text := by
  simp [decryptText, encryptText, toParsed, falsyN, falsyS, joinedField, algoLookup, algoName,
    VERSION, calculateMAC, String.isEmpty_iff, hct, hsalt, hiv, htext, hdec, hmacne]

/-- Witness for C1 at a concrete primitive bundle and inputs. -/
theorem crypto_roundtrip_witness :
    decryptText testPrims
        (some (toParsed (encryptText testPrims "hi" "pw" CryptoAlgo.AES "aa" "bb"))) "pw" =
      Except.ok "hi" :=
  crypto_roundtrip testPrims "hi" "pw" "aa" "bb" (by decide) (by decide) (by decide)
    (by decide) (by intro k d; simp [testPrims]) rfl

/-- Counterexample to C1 as stated: the round trip of the EMPTY plaintext
fails with DECRYPTION_FAILED, because the decrypted empty string is falsy
and rejected by the `!plainText` check. -/
theorem crypto_roundtrip_empty_counterexample :
    decryptText testPrims
        (some (toParsed (encryptText testPrims "" "pw" CryptoAlgo.AES "aa" "bb"))) "pw" =
      Except.error CryptoErrorCode.DECRYPTION_FAILED := by
  rfl

/-- C2: on a well-formed version-1 envelope whose stored mac differs from
the HMAC recomputed over the joined fields with the passphrase-derived MAC
key, decryptText fails with INTEGRITY_FAILED — and it does so for EVERY
possible decryption primitive `d`, i.e. the ciphertext is never decrypted
before (or after) the failed check. -/
theorem decrypt_badmac_integrity (P : Prims)
    (d : CryptoAlgo → List Nat → String → String → Option String)
    (a : Option String) (s iv ct mac passphrase : String)
    (hs : s ≠ "") (hiv : iv ≠ "") (hct : ct ≠ "") (hmac : mac ≠ "")
    (hbad : calculateMAC P [toString (1 : Nat), joinedField a, s, iv, ct]
        (deriveKeys P passphrase s).2 ≠ mac) :
    decryptText { P with decrypt := d }
        (some ⟨some 1, a, some s, some iv, some ct, some mac⟩) passphrase =
      Except.error CryptoErrorCode.INTEGRITY_FAILED := by
  simp only [decryptText, falsyN, falsyS, VERSION, String.isEmpty_iff]
  simp [hs, hiv, hct, hmac, String.isEmpty_iff]
  intro hcontra
  exact absurd hcontra (by simpa [calculateMAC, deriveKeys] using hbad)

/-- Witness for C2: a concrete envelope with a wrong mac, and a decryption
primitive that would happily return an attacker-controlled plaintext. -/
theorem decrypt_badmac_integrity_witness :
    decryptText { testPrims with decrypt := fun _ _ _ _ => some "HACKED" }
        (some ⟨some 1, some "AES", some "aa", some "bb", some "cc", some "zz"⟩) "pw" =
      Except.error CryptoErrorCode.INTEGRITY_FAILED :=
  decrypt_badmac_integrity testPrims (fun _ _ _ _ => some "HACKED") (some "AES")
    "aa" "bb" "cc" "zz" "pw" (by decide) (by decide) (by decide) (by decide)
    (by simp [calculateMAC, testPrims])

/-- C9 (amended): a decrypt input that fails to parse, or whose parse
result misses any of the fields v, s, iv, ct, mac, is rejected with
INVALID_PAYLOAD. The field `a` is NOT among the checked fields. -/
theorem decrypt_missing_field_invalid (P : Prims) (passphrase : String)
    (input : Option ParsedPayload)
    (h : input = none ∨ ∃ pl, input = some pl ∧
      (pl.v = none ∨ pl.s = none ∨ pl.iv = none ∨ pl.ct = none ∨ pl.mac = none)) :
    decryptText P input passphrase = Except.error CryptoErrorCode.INVALID_PAYLOAD := by
  rcases h with h | ⟨pl, rfl, h⟩
  · subst h; rfl
  · rcases h with h | h | h | h | h <;> simp [decryptText, falsyN, falsyS, h]

/-- Witness for C9 at a parse result missing its `v` field. -/
theorem decrypt_missing_field_invalid_witness :
    decryptText testPrims
        (some ⟨none, some "AES", some "aa", some "bb", some "cc", some "dd"⟩) "pw" =
      Except.error CryptoErrorCode.INVALID_PAYLOAD :=
  decrypt_missing_field_invalid testPrims "pw" _ (Or.inr ⟨_, rfl, Or.inl rfl⟩)

/-- Counterexample to C9 as stated: an envelope whose `a` field is absent
but whose five checked fields are present (and whose mac matches) is NOT
rejected with INVALID_PAYLOAD — decryption proceeds and here succeeds. -/
theorem decrypt_missing_a_counterexample :
    decryptText testPrims (some ⟨some 1, none, some "aa", some "bb", some "cc", some "m"⟩)
        "pw" = Except.ok "c" ∧
    decryptText testPrims (some ⟨some 1, none, some "aa", some "bb", some "cc", some "m"⟩)
        "pw" ≠ Except.error CryptoErrorCode.INVALID_PAYLOAD := by
  refine ⟨rfl, ?_⟩
  intro hco
  exact Except.noConfusion hco

/-- C10 (amended): for a parseable version-1 envelope with matching mac
whose `a` field is not one of the three supported names, the behavior
splits on the lookup. If `a` is absent or not an `Object.prototype`
property name, decryption falls back to the AES cipher, returning its
plaintext or DECRYPTION_FAILED. If `a` IS an inherited `Object.prototype`
property name (e.g. "toString"), the lookup returns a truthy non-cipher,
the `||` fallback does not trigger, and decryptText fails with
DECRYPTION_FAILED without attempting any decryption. -/
theorem decrypt_unknown_algo_fallback (P : Prims) (passphrase : String)
    (a : Option String) (s iv ct mac : String)
    (hs : s ≠ "") (hiv : iv ≠ "") (hct : ct ≠ "") (hmac : mac ≠ "")
    (ha : ∀ x, a = some x → x ∉ (["AES", "DES", "TripleDES"] : List String))
    (hok : calculateMAC P [toString (1 : Nat), joinedField a, s, iv, ct]
        (deriveKeys P passphrase s).2 = mac) :
    ((a = none ∨ ∃ x, a = some x ∧ x ∉ objectProtoKeys) →
      decryptText P (some ⟨some 1, a, some s, some iv, some ct, some mac⟩) passphrase =
        match P.decrypt CryptoAlgo.AES (deriveKeys P passphrase s).1 iv ct with
        | none => Except.error CryptoErrorCode.DECRYPTION_FAILED
        | some plainText =>
          if plainText.isEmpty then Except.error CryptoErrorCode.DECRYPTION_FAILED
          else Except.ok plainText) ∧
    (∀ x, a = some x → x ∈ objectProtoKeys →
      decryptText P (some ⟨some 1, a, some s, some iv, some ct, some mac⟩) passphrase =
        Except.error CryptoErrorCode.DECRYPTION_FAILED) := by
  constructor
  · intro hgood
    have halgo : algoLookup a = CipherLookup.cipher CryptoAlgo.AES := by
      rcases hgood with rfl | ⟨x, rfl, hxp⟩
      · rfl
      · have hx := ha x rfl
        simp only [List.mem_cons, List.not_mem_nil, or_false, not_or] at hx
        simp [algoLookup, hx.1, hx.2.1, hx.2.2, hxp]
    simp [decryptText, falsyN, falsyS, VERSION, String.isEmpty_iff, hs, hiv, hct, hmac, hok,
      halgo]
  · intro x hx hxp
    subst hx
    have hx' := ha x rfl
    simp only [List.mem_cons, List.not_mem_nil, or_false, not_or] at hx'
    have halgo : algoLookup (some x) = CipherLookup.junk := by
      simp [algoLookup, hx'.1, hx'.2.1, hx'.2.2, hxp]
    simp [decryptText, falsyN, falsyS, VERSION, String.isEmpty_iff, hs, hiv, hct, hmac, hok,
      halgo]

/-- Witness for C10: with the unrecognized, non-inherited algorithm name
"Blowfish" the envelope is decrypted via the AES fallback. -/
theorem decrypt_unknown_algo_fallback_witness :
    decryptText testPrims
        (some ⟨some 1, some "Blowfish", some "aa", some "bb", some "cc", some "m"⟩) "pw" =
      Except.ok "c" := by
  have h := (decrypt_unknown_algo_fallback testPrims "pw" (some "Blowfish") "aa" "bb" "cc" "m"
    (by decide) (by decide) (by decide) (by decide)
    (by intro x hx; injection hx with hx; subst hx; decide)
    (by simp [calculateMAC, testPrims])).1
    (Or.inr ⟨"Blowfish", rfl, by decide⟩)
  exact h

/-- Counterexample to C10 as stated: with `a` = "toString" (an inherited
`Object.prototype` key) and a matching mac, decryptText fails with
DECRYPTION_FAILED, while the claimed AES fallback would have returned the
plaintext — AES decryption is never attempted. -/
theorem decrypt_proto_key_counterexample :
    decryptText testPrims
        (some ⟨some 1, some "toString", some "aa", some "bb", some "cc", some "m"⟩) "pw" =
      Except.error CryptoErrorCode.DECRYPTION_FAILED ∧
    (match testPrims.decrypt CryptoAlgo.AES (deriveKeys testPrims "pw" "aa").1 "bb" "cc" with
      | none => Except.error CryptoErrorCode.DECRYPTION_FAILED
      | some plainText =>
        if plainText.isEmpty then Except.error CryptoErrorCode.DECRYPTION_FAILED
        else Except.ok plainText) = Except.ok "c" :=
  ⟨rfl, rfl⟩

/-! ## Theorems: LCS diff engine -/

/-- Fuel irrelevance for the backtracking loop: any fuel of at least
`i + j` computes the same script. -/
theorem btAux_fuel (o n : List Token) :
    ∀ f₁ f₂ i j, i + j ≤ f₁ → i + j ≤ f₂ → btAux o n f₁ i j = btAux o n f₂ i j := by
  intro f₁
  induction f₁ with
  | zero =>
    intro f₂ i j h1 _
    have hi : i = 0 := by omega
    have hj : j = 0 := by omega
    subst hi; subst hj
    cases f₂ <;> simp [btAux]
  | succ f ih =>
    intro f₂ i j h1 h2
    rcases f₂ with _ | f₂
    · have hi : i = 0 := by omega
      have hj : j = 0 := by omega
      subst hi; subst hj
      simp [btAux]
    · rcases i with _ | i
      · rcases j with _ | j
        · simp [btAux]
        · simp only [btAux]
          rw [ih f₂ 0 j (by omega) (by omega)]
      · rcases j with _ | j
        · simp only [btAux]
          rw [ih f₂ i 0 (by omega) (by omega)]
        · simp only [btAux]
          by_cases hkey :
              (o.getD i (Token.mk [] [])).diff = (n.getD j (Token.mk [] [])).diff
          · simp only [if_pos hkey]
            rw [ih f₂ i j (by omega) (by omega)]
          · simp only [if_neg hkey]
            by_cases hdp : dpT o n (i + 1) j ≥ dpT o n i (j + 1)
            · simp only [if_pos hdp]
              rw [ih f₂ (i + 1) j (by omega) (by omega)]
            · simp only [if_neg hdp]
              rw [ih f₂ i (j + 1) (by omega) (by omega)]

/-- Any sufficient fuel computes `backtrack`. -/
theorem btAux_eq_backtrack (o n : List Token) (f i j : Nat) (h : i + j ≤ f) :
    btAux o n f i j = backtrack o n i j :=
  btAux_fuel o n f (i + j) i j h le_rfl

/-- Backtracking step at the left edge (`i = 0`, `j > 0`): emit `added`. -/
theorem backtrack_zero_succ (o n : List Token) (j : Nat) :
    backtrack o n 0 (j + 1) =
      backtrack o n 0 j ++ [DiffOp.mk DiffType.added none n[j]?] := by
  show btAux o n (0 + (j + 1)) 0 (j + 1) = _
  have : 0 + (j + 1) = j + 1 := by omega
  rw [this]
  simp only [btAux]
  rw [btAux_eq_backtrack o n j 0 j (by omega)]

/-- Backtracking step at the top edge (`j = 0`, `i > 0`): emit `removed`. -/
theorem backtrack_succ_zero (o n : List Token) (i : Nat) :
    backtrack o n (i + 1) 0 =
      backtrack o n i 0 ++ [DiffOp.mk DiffType.removed o[i]? none] := by
  show btAux o n (i + 1 + 0) (i + 1) 0 = _
  have : i + 1 + 0 = i + 1 := by omega
  rw [this]
  simp only [btAux]
  rw [btAux_eq_backtrack o n i i 0 (by omega)]

/-- Backtracking step in the interior: the source branch structure. -/
theorem backtrack_succ_succ (o n : List Token) (i j : Nat) :
    backtrack o n (i + 1) (j + 1) =
      if (o.getD i (Token.mk [] [])).diff = (n.getD j (Token.mk [] [])).diff then
        backtrack o n i j ++ [DiffOp.mk DiffType.unchanged o[i]? n[j]?]
      else if dpT o n (i + 1) j ≥ dpT o n i (j + 1) then
        backtrack o n (i + 1) j ++ [DiffOp.mk DiffType.added none n[j]?]
      else
        backtrack o n i (j + 1) ++ [DiffOp.mk DiffType.removed o[i]? none] := by
  show btAux o n (i + 1 + (j + 1)) (i + 1) (j + 1) = _
  have : i + 1 + (j + 1) = (i + 1 + j) + 1 := by omega
  rw [this]
  simp only [btAux]
  rw [btAux_eq_backtrack o n (i + 1 + j) i j (by omega),
    btAux_eq_backtrack o n (i + 1 + j) (i + 1) j (by omega),
    btAux_eq_backtrack o n (i + 1 + j) i (j + 1) (by omega)]

/-- Side projections distribute over script concatenation. -/
theorem oldSide_append (l₁ l₂ : List DiffOp) :
    oldSide (l₁ ++ l₂) = oldSide l₁ ++ oldSide l₂ :=
  List.filterMap_append ..

/-- Side projections distribute over script concatenation. -/
theorem newSide_append (l₁ l₂ : List DiffOp) :
    newSide (l₁ ++ l₂) = newSide l₁ ++ newSide l₂ :=
  List.filterMap_append ..

/-- An added op contributes nothing to the old side. -/
theorem oldSide_single_added (y : Option Token) :
    oldSide [DiffOp.mk DiffType.added none y] = [] := rfl

/-- A removed op contributes its old item to the old side. -/
theorem oldSide_single_removed (x : Option Token) :
    oldSide [DiffOp.mk DiffType.removed x none] = x.toList := by
  cases x <;> rfl

/-- An unchanged op contributes its old item to the old side. -/
theorem oldSide_single_unchanged (x y : Option Token) :
    oldSide [DiffOp.mk DiffType.unchanged x y] = x.toList := by
  cases x <;> rfl

/-- An added op contributes its new item to the new side. -/
theorem newSide_single_added (y : Option Token) :
    newSide [DiffOp.mk DiffType.added none y] = y.toList := by
  cases y <;> rfl

/-- A removed op contributes nothing to the new side. -/
theorem newSide_single_removed (x : Option Token) :
    newSide [DiffOp.mk DiffType.removed x none] = [] := rfl

/-- An unchanged op contributes its new item to the new side. -/
theorem newSide_single_unchanged (x y : Option Token) :
    newSide [DiffOp.mk DiffType.unchanged x y] = y.toList := by
  cases y <;> rfl

/-- Both sides of a backtracked script reconstruct the corresponding
input prefixes. -/
theorem backtrack_sides (o n : List Token) :
    ∀ f i j, i + j ≤ f → i ≤ o.length → j ≤ n.length →
      oldSide (btAux o n f i j) = o.take i ∧ newSide (btAux o n f i j) = n.take j := by
  intro f
  induction f with
  | zero =>
    intro i j h1 _ _
    have hi : i = 0 := by omega
    have hj : j = 0 := by omega
    subst hi; subst hj
    simp [btAux, oldSide, newSide]
  | succ f ih =>
    intro i j h1 hi hj
    rcases i with _ | i
    · rcases j with _ | j
      · simp [btAux, oldSide, newSide]
      · obtain ⟨ho, hn⟩ := ih 0 j (by omega) (by omega) (by omega)
        simp only [btAux]
        refine ⟨?_, ?_⟩
        · rw [oldSide_append, ho, oldSide_single_added]
          simp
        · rw [newSide_append, hn, newSide_single_added, List.take_succ]
    · rcases j with _ | j
      · obtain ⟨ho, hn⟩ := ih i 0 (by omega) (by omega) (by omega)
        simp only [btAux]
        refine ⟨?_, ?_⟩
        · rw [oldSide_append, ho, oldSide_single_removed, List.take_succ]
        · rw [newSide_append, hn, newSide_single_removed]
          simp
      · simp only [btAux]
        by_cases hkey :
            (o.getD i (Token.mk [] [])).diff = (n.getD j (Token.mk [] [])).diff
        · obtain ⟨ho, hn⟩ := ih i j (by omega) (by omega) (by omega)
          simp only [if_pos hkey]
          refine ⟨?_, ?_⟩
          · rw [oldSide_append, ho, oldSide_single_unchanged, List.take_succ]
          · rw [newSide_append, hn, newSide_single_unchanged, List.take_succ]
        · simp only [if_neg hkey]
          by_cases hdp : dpT o n (i + 1) j ≥ dpT o n i (j + 1)
          · obtain ⟨ho, hn⟩ := ih (i + 1) j (by omega) (by omega) (by omega)
            simp only [if_pos hdp]
            refine ⟨?_, ?_⟩
            · rw [oldSide_append, ho, oldSide_single_added]
              simp
            · rw [newSide_append, hn, newSide_single_added, List.take_succ]
          · obtain ⟨ho, hn⟩ := ih i (j + 1) (by omega) (by omega) (by omega)
            simp only [if_neg hdp]
            refine ⟨?_, ?_⟩
            · rw [oldSide_append, ho, oldSide_single_removed, List.take_succ]
            · rw [newSide_append, hn, newSide_single_removed]
              simp

/-- C3: the edit script of the LCS aligner is complete — the old-side
items of its Unchanged and Removed ops reconstruct the old sequence in
order, and the new-side items of its Unchanged and Added ops reconstruct
the new sequence in order. -/
theorem computeDiff_complete (o n : List Token) :
    oldSide (computeDiff o n) = o ∧ newSide (computeDiff o n) = n := by
  have h := backtrack_sides o n (o.length + n.length) o.length n.length le_rfl le_rfl le_rfl
  simpa [computeDiff, backtrack, List.take_length] using h

/-- C5: backtrack tie-break policy. At any interior position, equal keys
of the current old and new items make the aligner emit an Unchanged op
consuming both; with unequal keys and a tie between the DP score for
skipping the old item (`dp[i-1][j]`) and for skipping the new item
(`dp[i][j-1]`), it emits Added (consuming from the new sequence) rather
than Removed. -/
theorem computeDiff_tiebreak (o n : List Token) (i j : Nat)
    (hi : i < o.length) (hj : j < n.length) :
    ((o.get ⟨i, hi⟩).diff = (n.get ⟨j, hj⟩).diff →
      backtrack o n (i + 1) (j + 1) =
        backtrack o n i j ++ [DiffOp.mk DiffType.unchanged o[i]? n[j]?]) ∧
    ((o.get ⟨i, hi⟩).diff ≠ (n.get ⟨j, hj⟩).diff →
      dpT o n i (j + 1) = dpT o n (i + 1) j →
      backtrack o n (i + 1) (j + 1) =
        backtrack o n (i + 1) j ++ [DiffOp.mk DiffType.added none n[j]?]) := by
  have hgo : (o.getD i (Token.mk [] [])) = o.get ⟨i, hi⟩ := by
    rw [List.getD_eq_getElem _ _ hi]
    simp
  have hgn : (n.getD j (Token.mk [] [])) = n.get ⟨j, hj⟩ := by
    rw [List.getD_eq_getElem _ _ hj]
    simp
  constructor
  · intro hkey
    rw [backtrack_succ_succ, if_pos (by rw [hgo, hgn]; exact hkey)]
  · intro hkey htie
    rw [backtrack_succ_succ, if_neg (by rw [hgo, hgn]; exact hkey),
      if_pos (by omega)]

/-- Witness for C5 at the one-token sequences `[a]` and `[b]`: keys
differ, the skip scores are tied (both 0), and the Added op is emitted. -/
theorem computeDiff_tiebreak_witness :
    backtrack [Token.mk ['a'] ['a']] [Token.mk ['b'] ['b']] 1 1 =
      backtrack [Token.mk ['a'] ['a']] [Token.mk ['b'] ['b']] 1 0 ++
        [DiffOp.mk DiffType.added none (some (Token.mk ['b'] ['b']))] := by
  have h := (computeDiff_tiebreak [Token.mk ['a'] ['a']] [Token.mk ['b'] ['b']] 0 0
    (by decide) (by decide)).2 (by decide) (by decide)
  exact h

/-! ## Theorems: tokenizer -/

/-- Flattening the raw token segmentation reproduces the input: the regex
alternatives cover every character, so matches tile the string. -/
theorem rawTokensAux_flatten : ∀ (f : Nat) (s : List Char), s.length ≤ f →
    (rawTokensAux f s).flatten = s := by
  intro f
  induction f with
  | zero =>
    intro s h
    have hnil : s = [] := List.eq_nil_of_length_eq_zero (by omega)
    subst hnil
    rfl
  | succ f ih =>
    intro s h
    cases s with
    | nil => rfl
    | cons c rest =>
      simp only [List.length_cons] at h
      simp only [rawTokensAux]
      by_cases h1 : isCJK c = true
      · rw [if_pos h1]
        simp only [List.flatten_cons, List.singleton_append, List.cons.injEq, true_and]
        exact ih rest (by omega)
      · rw [if_neg h1]
        by_cases h2 : isWordOrApostrophe c = true
        · rw [if_pos h2]
          simp only [List.flatten_cons, List.cons_append, List.cons.injEq, true_and]
          rw [ih (rest.dropWhile isWordOrApostrophe)
            (le_trans (List.dropWhile_sublist _).length_le (by omega))]
          exact List.takeWhile_append_dropWhile _ _
        · rw [if_neg h2]
          by_cases h3 : isJsSpace c = true
          · rw [if_pos h3]
            simp only [List.flatten_cons, List.cons_append, List.cons.injEq, true_and]
            rw [ih (rest.dropWhile isJsSpace)
              (le_trans (List.dropWhile_sublist _).length_le (by omega))]
            exact List.takeWhile_append_dropWhile _ _
          · rw [if_neg h3]
            simp only [List.flatten_cons, List.singleton_append, List.cons.injEq, true_and]
            exact ih rest (by omega)

/-- Every raw token containing a punctuation/symbol character (neither
whitespace nor word/apostrophe nor CJK) is exactly that single character. -/
theorem rawTokensAux_single : ∀ (f : Nat) (s : List Char), ∀ t ∈ rawTokensAux f s, ∀ c ∈ t,
    isJsSpace c = false → isWordOrApostrophe c = false → isCJK c = false → t = [c] := by
  intro f
  induction f with
  | zero =>
    intro s t ht
    simp [rawTokensAux] at ht
  | succ f ih =>
    intro s t ht c hc hsp hwd hcjk
    cases s with
    | nil => simp [rawTokensAux] at ht
    | cons a rest =>
      simp only [rawTokensAux] at ht
      by_cases h1 : isCJK a = true
      · rw [if_pos h1] at ht
        rcases List.mem_cons.mp ht with rfl | ht'
        · simp only [List.mem_singleton] at hc
          subst hc
          rfl
        · exact ih rest t ht' c hc hsp hwd hcjk
      · rw [if_neg h1] at ht
        by_cases h2 : isWordOrApostrophe a = true
        · rw [if_pos h2] at ht
          rcases List.mem_cons.mp ht with rfl | ht'
          · rcases List.mem_cons.mp hc with rfl | hc'
            · simp [h2] at hwd
            · have hx := List.mem_takeWhile_imp hc'
              simp [hx] at hwd
          · exact ih _ t ht' c hc hsp hwd hcjk
        · rw [if_neg h2] at ht
          by_cases h3 : isJsSpace a = true
          · rw [if_pos h3] at ht
            rcases List.mem_cons.mp ht with rfl | ht'
            · rcases List.mem_cons.mp hc with rfl | hc'
              · simp [h3] at hsp
              · have hx := List.mem_takeWhile_imp hc'
                simp [hx] at hsp
            · exact ih _ t ht' c hc hsp hwd hcjk
          · rw [if_neg h3] at ht
            rcases List.mem_cons.mp ht with rfl | ht'
            · simp only [List.mem_singleton] at hc
              subst hc
              rfl
            · exact ih rest t ht' c hc hsp hwd hcjk

/-- C4: with ignore-punctuation and ignore-whitespace both off, the filter
keeps every token, and concatenating the `render` fields of
`tokenize(S, settings)` in order reproduces S exactly. -/
theorem tokenize_roundtrip (pPS : Char → Bool) (st : DiffSettings) (s : List Char)
    (hp : st.ignorePunctuation = false) (hw : st.ignoreWhitespace = false) :
    ((tokenize pPS st s).map Token.render).flatten = s := by
  by_cases hs : s = []
  · subst hs; rfl
  · unfold tokenize
    rw [if_neg hs]
    rw [List.filter_eq_self.mpr (fun t _ => by rw [hp, hw]; rfl)]
    rw [List.map_map]
    have hid : (Token.render ∘ fun raw => Token.mk raw (getDiffKey pPS st raw)) = id := rfl
    rw [hid, List.map_id]
    exact rawTokensAux_flatten s.length s le_rfl

/-- Witness for C4 on a concrete mixed CJK/word/punctuation string. -/
theorem tokenize_roundtrip_witness :
    ((tokenize asciiPunctSymbol (DiffSettings.mk false false false)
        "ab 你!".toList).map Token.render).flatten = "ab 你!".toList :=
  tokenize_roundtrip asciiPunctSymbol (DiffSettings.mk false false false)
    "ab 你!".toList rfl rfl

/-- C8 (amended): the segmentation loses no character, and each
punctuation/symbol character (not whitespace, not word/apostrophe, not
CJK) forms its own one-character token — a maximal run of k such
characters yields k tokens, not one. -/
theorem rawTokens_punct_single_tokens (s : List Char) :
    (rawTokens s).flatten = s ∧
    ∀ t ∈ rawTokens s, ∀ c ∈ t,
      isJsSpace c = false → isWordOrApostrophe c = false → isCJK c = false → t = [c] :=
  ⟨rawTokensAux_flatten s.length s le_rfl, rawTokensAux_single s.length s⟩

/-- Witness for C8 on the concrete input "a!". -/
theorem rawTokens_punct_single_tokens_witness :
    (rawTokens ['a', '!']).flatten = ['a', '!'] ∧ (['!'] : List Char) = ['!'] :=
  ⟨(rawTokens_punct_single_tokens ['a', '!']).1,
    (rawTokens_punct_single_tokens ['a', '!']).2 ['!'] (by decide) '!' (by decide)
      (by decide) (by decide) (by decide)⟩

/-- Counterexample to C8 as stated: the maximal punctuation run "!!" is
segmented into TWO one-character tokens, not one two-character token. -/
theorem rawTokens_punct_run_counterexample :
    rawTokens ['!', '!'] = [['!'], ['!']] ∧ rawTokens ['!', '!'] ≠ [['!', '!']] := by
  decide

/-- Fullwidth folding maps JS whitespace to JS whitespace (only the
ideographic space moves, to the ASCII space). -/
theorem foldChar_of_jsSpace {c : Char} (h : isJsSpace c = true) :
    isJsSpace (foldChar c) = true := by
  have h' := h
  simp only [isJsSpace, Bool.or_eq_true, decide_eq_true_eq, List.mem_cons,
    List.not_mem_nil, or_false] at h'
  have h1 : ¬(0xff01 ≤ c.toNat ∧ c.toNat ≤ 0xff5e) := by omega
  by_cases h3 : c.toNat = 0x3000
  · unfold foldChar
    rw [if_neg h1, if_pos h3]
    decide
  · unfold foldChar
    rw [if_neg h1, if_neg h3]
    exact h

/-- Lowercasing fixes JS whitespace (no whitespace code point is an ASCII
capital letter). -/
theorem toLower_of_jsSpace {c : Char} (h : isJsSpace c = true) :
    Char.toLower c = c := by
  simp only [isJsSpace, Bool.or_eq_true, decide_eq_true_eq, List.mem_cons,
    List.not_mem_nil, or_false] at h
  have hne : ¬(c.toNat ≥ 65 ∧ c.toNat ≤ 90) := by omega
  simp [Char.toLower, hne]

/-- Dropping a whitespace prefix of an all-whitespace list leaves nothing. -/
theorem dropWhile_jsSpace_eq_nil {l : List Char} (h : ∀ c ∈ l, isJsSpace c = true) :
    l.dropWhile isJsSpace = [] := by
  induction l with
  | nil => rfl
  | cons a t ih =>
    rw [List.dropWhile_cons]
    rw [h a (List.mem_cons_self a t)]
    exact ih fun c hc => h c (List.mem_cons_of_mem a hc)

/-- Trimming an all-whitespace list yields the empty list. -/
theorem jsTrim_eq_nil {l : List Char} (h : ∀ c ∈ l, isJsSpace c = true) :
    jsTrim l = [] := by
  unfold jsTrim
  rw [dropWhile_jsSpace_eq_nil h]
  rfl

/-- C7 (amended): when ignore-whitespace is off, the comparison key of a
whitespace-run token is trimmed away entirely — it is the EMPTY key, so a
two-space token and a one-space token receive the SAME key (for any
instantiation of the punctuation class `pPS`). -/
theorem whitespace_token_key_empty (pPS : Char → Bool) (st : DiffSettings) (t : List Char)
    (hw : st.ignoreWhitespace = false)
    (hall : ∀ c ∈ t, isJsSpace c = true) :
    getDiffKey pPS st t = [] := by
  have h1 : ∀ c ∈ t.map foldChar, isJsSpace c = true := by
    intro c hc
    obtain ⟨a, ha, rfl⟩ := List.mem_map.mp hc
    exact foldChar_of_jsSpace (hall a ha)
  unfold getDiffKey
  rw [hw]
  by_cases hcase : st.ignoreCase = true <;> by_cases hp : st.ignorePunctuation = true <;>
      simp only [hcase, hp, if_true, if_false, Bool.false_eq_true] <;>
    apply jsTrim_eq_nil <;> intro c hc
  · have hc' := (List.mem_filter.mp hc).1
    obtain ⟨a, ha, rfl⟩ := List.mem_map.mp hc'
    rw [toLower_of_jsSpace (h1 a ha)]
    exact h1 a ha
  · obtain ⟨a, ha, rfl⟩ := List.mem_map.mp hc
    rw [toLower_of_jsSpace (h1 a ha)]
    exact h1 a ha
  · exact h1 c (List.mem_filter.mp hc).1
  · exact h1 c hc

/-- Witness for C7: the two-space token has the empty key. -/
theorem whitespace_token_key_empty_witness :
    getDiffKey asciiPunctSymbol (DiffSettings.mk false false false) [' ', ' '] = [] :=
  whitespace_token_key_empty asciiPunctSymbol (DiffSettings.mk false false false)
    [' ', ' '] rfl (by decide)

/-- Counterexample to C7 as stated: under every settings combination with
ignore-whitespace off, the two-space token and the one-space token get the
SAME comparison key (both trim to empty), never different ones. -/
theorem whitespace_token_key_counterexample :
    getDiffKey asciiPunctSymbol (DiffSettings.mk false false false) [' ', ' '] =
        getDiffKey asciiPunctSymbol (DiffSettings.mk false false false) [' '] ∧
    getDiffKey asciiPunctSymbol (DiffSettings.mk true false false) [' ', ' '] =
        getDiffKey asciiPunctSymbol (DiffSettings.mk true false false) [' '] ∧
    getDiffKey asciiPunctSymbol (DiffSettings.mk false true false) [' ', ' '] =
        getDiffKey asciiPunctSymbol (DiffSettings.mk false true false) [' '] ∧
    getDiffKey asciiPunctSymbol (DiffSettings.mk true true false) [' ', ' '] =
        getDiffKey asciiPunctSymbol (DiffSettings.mk true true false) [' '] := by
  decide

/-! ## Theorems: password generator -/

/-- Swapping two positions preserves length. -/
theorem listSwap_length (l : List Char) (i j : Nat) :
    (listSwap l i j).length = l.length := by
  simp [listSwap]

/-- Swapping two in-bounds positions permutes the list. -/
theorem listSwap_perm : ∀ (l : List Char) (i j : Nat), i < l.length → j < l.length →
    List.Perm (listSwap l i j) l := by
  intro l
  induction l with
  | nil =>
    intro i j hi _
    simp at hi
  | cons a t ih =>
    intro i j hi hj
    rcases i with _ | i
    · rcases j with _ | j
      · simp [listSwap]
      · have hj' : j < t.length := by simpa using hj
        unfold listSwap
        simp only [List.getD_cons_succ, List.getD_cons_zero, List.set_cons_zero,
          List.set_cons_succ]
        rw [List.getD_eq_getElem _ _ hj', List.set_eq_take_cons_drop a hj']
        conv_rhs => rw [← List.take_append_drop j t, List.drop_eq_getElem_cons hj']
        have p1 : List.Perm (t.take j ++ a :: t.drop (j + 1))
            (a :: (t.take j ++ t.drop (j + 1))) := List.perm_middle
        have p2 : List.Perm (t.take j ++ t[j] :: t.drop (j + 1))
            (t[j] :: (t.take j ++ t.drop (j + 1))) := List.perm_middle
        exact ((p1.cons _).trans (List.Perm.swap _ _ _)).trans ((p2.cons a).symm)
    · rcases j with _ | j
      · have hi' : i < t.length := by simpa using hi
        unfold listSwap
        simp only [List.getD_cons_succ, List.getD_cons_zero, List.set_cons_zero,
          List.set_cons_succ]
        rw [List.getD_eq_getElem _ _ hi', List.set_eq_take_cons_drop a hi']
        conv_rhs => rw [← List.take_append_drop i t, List.drop_eq_getElem_cons hi']
        have p1 : List.Perm (t.take i ++ a :: t.drop (i + 1))
            (a :: (t.take i ++ t.drop (i + 1))) := List.perm_middle
        have p2 : List.Perm (t.take i ++ t[i] :: t.drop (i + 1))
            (t[i] :: (t.take i ++ t.drop (i + 1))) := List.perm_middle
        exact ((p1.cons _).trans (List.Perm.swap _ _ _)).trans ((p2.cons a).symm)
      · have hi' : i < t.length := by simpa using hi
        have hj' : j < t.length := by simpa using hj
        unfold listSwap
        simp only [List.getD_cons_succ, List.set_cons_succ]
        exact (ih i j hi' hj').cons a

/-- The Fisher-Yates countdown loop permutes its input. -/
theorem fyLoop_perm (R : Nat → Nat) :
    ∀ (k : Nat) (ctr : Nat) (l : List Char), k < l.length →
      List.Perm (fyLoop R ctr l k) l := by
  intro k
  induction k with
  | zero =>
    intro ctr l _
    exact List.Perm.refl l
  | succ k ih =>
    intro ctr l hk
    have hjlt : getSecureRandomInt (R ctr) (k + 2) < k + 2 :=
      Nat.mod_lt _ (by omega)
    have hswap := listSwap_perm l (k + 1) (getSecureRandomInt (R ctr) (k + 2)) hk
      (by omega)
    have hlen : (listSwap l (k + 1) (getSecureRandomInt (R ctr) (k + 2))).length =
        l.length := listSwap_length ..
    exact (ih (ctr + 1) _ (by omega)).trans hswap

/-- The full shuffle permutes its input. -/
theorem fisherYates_perm (R : Nat → Nat) (ctr : Nat) (l : List Char) :
    List.Perm (fisherYates R ctr l) l := by
  cases l with
  | nil => exact List.Perm.refl _
  | cons a t =>
    exact fyLoop_perm R ((a :: t).length - 1) ctr (a :: t) (by simp)

/-- One coverage pick is made per pool. -/
theorem coveragePicks_length (R : Nat → Nat) :
    ∀ (i : Nat) (pools : List (List Char)),
      (coveragePicks R i pools).length = pools.length := by
  intro i pools
  induction pools generalizing i with
  | nil => rfl
  | cons p rest ih => simp [coveragePicks, ih]

/-- Every non-empty pool contributes a member of itself to the picks. -/
theorem coveragePicks_mem (R : Nat → Nat) :
    ∀ (pools : List (List Char)) (i : Nat) (pool : List Char),
      pool ∈ pools → pool ≠ [] →
      ∃ c, c ∈ coveragePicks R i pools ∧ c ∈ pool := by
  intro pools
  induction pools with
  | nil =>
    intro i pool hm
    simp at hm
  | cons p rest ih =>
    intro i pool hm hne
    rcases List.mem_cons.mp hm with rfl | hm'
    · have hlt : getSecureRandomInt (R i) pool.length < pool.length :=
        Nat.mod_lt _ (List.length_pos.mpr hne)
      refine ⟨pool.getD (getSecureRandomInt (R i) pool.length) (Char.ofNat 32), ?_, ?_⟩
      · exact List.mem_cons_self _ _
      · rw [List.getD_eq_getElem _ _ hlt]
        exact List.getElem_mem hlt
    · obtain ⟨c, hc1, hc2⟩ := ih (i + 1) pool hm' hne
      exact ⟨c, List.mem_cons_of_mem _ hc1, hc2⟩

/-- Every active pool is one of the four sanitized base charsets. -/
theorem mem_activePools (opts : PasswordOptions) (pool : List Char)
    (h : pool ∈ activePools opts) :
    pool = sanitize opts CHARSETS_uppercase ∨ pool = sanitize opts CHARSETS_lowercase ∨
    pool = sanitize opts CHARSETS_numbers ∨ pool = sanitize opts CHARSETS_symbols := by
  unfold activePools at h
  rcases opts with ⟨u, lo, nu, sy, e⟩
  cases u <;> cases lo <;> cases nu <;> cases sy <;> simp_all <;> tauto

/-- Sanitizing any of the four base charsets never empties it. -/
theorem sanitize_base_ne_nil (opts : PasswordOptions) (set : List Char)
    (h : set = CHARSETS_uppercase ∨ set = CHARSETS_lowercase ∨
      set = CHARSETS_numbers ∨ set = CHARSETS_symbols) :
    sanitize opts set ≠ [] := by
  cases he : opts.excludeAmbiguous <;> rcases h with rfl | rfl | rfl | rfl <;>
    simp [sanitize, he] <;> decide

/-- Active pools are never empty lists of characters. -/
theorem activePools_mem_ne_nil (opts : PasswordOptions) (pool : List Char)
    (h : pool ∈ activePools opts) : pool ≠ [] := by
  rcases mem_activePools opts pool h with rfl | rfl | rfl | rfl
  · exact sanitize_base_ne_nil opts _ (Or.inl rfl)
  · exact sanitize_base_ne_nil opts _ (Or.inr (Or.inl rfl))
  · exact sanitize_base_ne_nil opts _ (Or.inr (Or.inr (Or.inl rfl)))
  · exact sanitize_base_ne_nil opts _ (Or.inr (Or.inr (Or.inr rfl)))

/-- A valid option set yields at least one active pool. -/
theorem exists_mem_activePools (opts : PasswordOptions) (h : isValid opts = true) :
    ∃ pool, pool ∈ activePools opts := by
  unfold isValid at h
  rcases opts with ⟨u, lo, nu, sy, e⟩
  cases u <;> cases lo <;> cases nu <;> cases sy <;> simp_all [activePools]

/-- The flattened union of active pools of a valid option set is
non-empty. -/
theorem flatten_activePools_ne_nil (opts : PasswordOptions) (h : isValid opts = true) :
    (activePools opts).flatten ≠ [] := by
  intro hfl
  obtain ⟨pool, hm⟩ := exists_mem_activePools opts h
  exact activePools_mem_ne_nil opts pool hm (List.flatten_eq_nil_iff.mp hfl pool hm)

/-- C6: for a request with at least one active class, the generated
password contains at least one character from each active pool; its
length equals the requested length, except that a request shorter than
the number of active pools yields exactly one character per active pool. -/
theorem generate_coverage_length (R : Nat → Nat) (len : Nat) (opts : PasswordOptions)
    (hvalid : isValid opts = true) :
    (∀ pool ∈ activePools opts, ∃ c, c ∈ generate R len opts ∧ c ∈ pool) ∧
    ((activePools opts).length ≤ len → (generate R len opts).length = len) ∧
    (len < (activePools opts).length →
      (generate R len opts).length = (activePools opts).length) := by
  have hfl : ¬((activePools opts).flatten.length = 0) := fun hz =>
    flatten_activePools_ne_nil opts hvalid (List.length_eq_zero.mp hz)
  have hgen : generate R len opts =
      fisherYates R (max len (coveragePicks R 0 (activePools opts)).length)
        (coveragePicks R 0 (activePools opts) ++
          fillChars R (activePools opts).flatten
            (coveragePicks R 0 (activePools opts)).length
            (max len (coveragePicks R 0 (activePools opts)).length -
              (coveragePicks R 0 (activePools opts)).length)) := by
    unfold generate
    rw [hvalid]
    simp only [Bool.not_true, Bool.false_eq_true, if_false]
    rw [if_neg hfl]
  have hlenp : (coveragePicks R 0 (activePools opts)).length = (activePools opts).length :=
    coveragePicks_length R 0 (activePools opts)
  have hperm := fisherYates_perm R
    (max len (coveragePicks R 0 (activePools opts)).length)
    (coveragePicks R 0 (activePools opts) ++
      fillChars R (activePools opts).flatten
        (coveragePicks R 0 (activePools opts)).length
        (max len (coveragePicks R 0 (activePools opts)).length -
          (coveragePicks R 0 (activePools opts)).length))
  have hlen : (generate R len opts).length =
      max len (coveragePicks R 0 (activePools opts)).length := by
    rw [hgen, hperm.length_eq]
    simp only [List.length_append, fillChars, List.length_map, List.length_range']
    omega
  refine ⟨?_, ?_, ?_⟩
  · intro pool hm
    obtain ⟨c, hc1, hc2⟩ := coveragePicks_mem R (activePools opts) 0 pool hm
      (activePools_mem_ne_nil opts pool hm)
    refine ⟨c, ?_, hc2⟩
    rw [hgen]
    exact hperm.mem_iff.mpr (List.mem_append_left _ hc1)
  · intro hle
    rw [hlen, hlenp]
    omega
  · intro hlt
    rw [hlen, hlenp]
    omega

/-- Witness for C6: four active pools, requested length 12. -/
theorem generate_coverage_length_witness :
    (generate (fun _ => 0) 12 (PasswordOptions.mk true true true true false)).length = 12 :=
  (generate_coverage_length (fun _ => 0) 12 (PasswordOptions.mk true true true true false)
    (by decide)).2.1 (by decide)
